import Mathlib

/-!
Verification model of the stream-json parser (src/src-tauri/src/services/parser.rs)
and the process manager (src/src-tauri/src/services/process.rs).

Byte streams are modelled as lists of naturals (each < 256), Rust String values
as lists of Char, f64 cost figures as rationals, and serde_json as an explicit
JSON grammar over a Json inductive.  Effectful operations of the process
manager are modelled as explicit state transitions, with the outcome of the
OS-level spawn supplied as a parameter.
-/

/-! Character helpers: Rust str::trim uses char::is_whitespace, which is the
Unicode White_Space property. -/

def isRustWhitespace (c : Char) : Bool :=
  c.toNat = 0x09 || c.toNat = 0x0A || c.toNat = 0x0B || c.toNat = 0x0C ||
  c.toNat = 0x0D || c.toNat = 0x20 || c.toNat = 0x85 || c.toNat = 0xA0 ||
  c.toNat = 0x1680 || (0x2000 ≤ c.toNat && c.toNat ≤ 0x200A) ||
  c.toNat = 0x2028 || c.toNat = 0x2029 || c.toNat = 0x202F ||
  c.toNat = 0x205F || c.toNat = 0x3000

/-- Model of Rust str::trim on a list of characters. -/
def rustTrim (l : List Char) : List Char :=
  ((l.dropWhile isRustWhitespace).reverse.dropWhile isRustWhitespace).reverse

/-- Model of str::trim_end_matches applied with the carriage-return character. -/
def trimEndCR (l : List Char) : List Char :=
  (l.reverse.dropWhile (fun c => c == '\r')).reverse

/-! UTF-8 decoding, modelling std::str::from_utf8 (strict: rejects overlong
encodings, surrogates and code points above 0x10FFFF). -/

def isCont (b : Nat) : Bool := 0x80 ≤ b && b ≤ 0xBF

def cont3Lo (b : Nat) : Nat := if b = 0xE0 then 0xA0 else 0x80

def cont3Hi (b : Nat) : Nat := if b = 0xED then 0x9F else 0xBF

def cont4Lo (b : Nat) : Nat := if b = 0xF0 then 0x90 else 0x80

def cont4Hi (b : Nat) : Nat := if b = 0xF4 then 0x8F else 0xBF

/-- Decode one UTF-8 scalar value from the front of a byte list, returning the
decoded character and the remaining bytes, or none if the bytes are not valid
UTF-8 at this position. -/
def utf8Step (l : List Nat) : Option (Char × List Nat) :=
  match l with
  | [] => none
  | b :: bs =>
    if b < 0x80 then some (Char.ofNat b, bs)
    else if b < 0xC2 then none
    else if b < 0xE0 then
      match bs with
      | b1 :: bs1 =>
        if isCont b1 then
          some (Char.ofNat ((b - 0xC0) * 0x40 + (b1 - 0x80)), bs1)
        else none
      | [] => none
    else if b < 0xF0 then
      match bs with
      | b1 :: b2 :: bs2 =>
        if cont3Lo b ≤ b1 && b1 ≤ cont3Hi b && isCont b2 then
          some (Char.ofNat ((b - 0xE0) * 0x1000 + (b1 - 0x80) * 0x40 + (b2 - 0x80)), bs2)
        else none
      | _ => none
    else if b < 0xF5 then
      match bs with
      | b1 :: b2 :: b3 :: bs3 =>
        if cont4Lo b ≤ b1 && b1 ≤ cont4Hi b && isCont b2 && isCont b3 then
          some (Char.ofNat ((b - 0xF0) * 0x40000 + (b1 - 0x80) * 0x1000 +
                 (b2 - 0x80) * 0x40 + (b3 - 0x80)), bs3)
        else none
      | _ => none
    else none

/-- Fuelled decoding loop; the fuel argument only serves structural recursion,
one unit of fuel covers at least one consumed byte. -/
def utf8DecodeLoop : Nat → List Nat → Option (List Char)
  | _, [] => some []
  | 0, _ :: _ => none
  | fuel + 1, b :: bs =>
    match utf8Step (b :: bs) with
    | none => none
    | some (c, rest) => (utf8DecodeLoop fuel rest).map (fun s => c :: s)

/-- Model of std::str::from_utf8: either the whole byte list is valid UTF-8 and
decodes to a character list, or the conversion fails. -/
def utf8Decode (l : List Nat) : Option (List Char) := utf8DecodeLoop l.length l

/-! Splitting a buffer at newline characters.  This models the while-let loop
of StreamJsonParser::parse_chunk, which repeatedly extracts the prefix of the
buffer up to the first newline: splitNl returns the list of newline-terminated
complete lines (without their terminators) and the unterminated remainder. -/

def splitNl : List Char → List (List Char) × List Char
  | [] => ([], [])
  | c :: cs =>
    if c = '\n' then ([] :: (splitNl cs).1, (splitNl cs).2)
    else
      match splitNl cs with
      | ([], r) => ([], c :: r)
      | (l :: ls, r) => ((c :: l) :: ls, r)

/-! Model of serde_json values and parsing.  A JSON number carries its exact
rational value (the f64 arm of serde_json is idealized to exact arithmetic;
no claim depends on rounding of in-range values) together with the flag
saying whether serde_json stores it in the unsigned-integer arm of its Number
type — only numbers written as a bare non-negative integer that fits u64 land
there, and only that arm deserializes into u64/usize fields.  Numbers whose
magnitude reaches the binary64 round-to-infinity threshold are a parse error,
as serde_json::from_str fails on f64 overflow.  Objects are association
lists; on a duplicate key the later occurrence wins, as with serde_json map
insertion. -/

inductive Json where
  | null
  | bool (b : Bool)
  | num (q : Rat) (uint : Bool)
  | str (s : List Char)
  | arr (elems : List Json)
  | obj (fields : List (List Char × Json))

/-- JSON insignificant whitespace accepted by serde_json. -/
def isJsonWs (c : Char) : Bool := c == ' ' || c == '\t' || c == '\n' || c == '\r'

def skipWs (l : List Char) : List Char := l.dropWhile isJsonWs

def hexVal (c : Char) : Option Nat :=
  if 48 ≤ c.toNat ∧ c.toNat ≤ 57 then some (c.toNat - 48)
  else if 97 ≤ c.toNat ∧ c.toNat ≤ 102 then some (c.toNat - 87)
  else if 65 ≤ c.toNat ∧ c.toNat ≤ 70 then some (c.toNat - 55)
  else none

/-- Single-character escapes of JSON strings. -/
def escChar (e : Char) : Option Char :=
  if e = '"' then some '"'
  else if e = '\\' then some '\\'
  else if e = '/' then some '/'
  else if e = 'b' then some (Char.ofNat 0x08)
  else if e = 'f' then some (Char.ofNat 0x0C)
  else if e = 'n' then some '\n'
  else if e = 'r' then some '\r'
  else if e = 't' then some '\t'
  else none

/-- Parse the body of a JSON string after the opening quote, up to and
including the closing quote.  Raw control characters are rejected, unicode
escapes must form valid scalar values (surrogates must come in pairs). -/
def parseStringBody : List Char → Option (List Char × List Char)
  | [] => none
  | c :: rest =>
    if c = '"' then some ([], rest)
    else if c = '\\' then
      match rest with
      | [] => none
      | e :: rest2 =>
        match escChar e with
        | some ec => (parseStringBody rest2).map (fun p => (ec :: p.1, p.2))
        | none =>
          if e = 'u' then
            match rest2 with
            | h1 :: h2 :: h3 :: h4 :: rest6 =>
              match hexVal h1, hexVal h2, hexVal h3, hexVal h4 with
              | some a, some b, some c2, some d =>
                let n := a * 0x1000 + b * 0x100 + c2 * 0x10 + d
                if 0xD800 ≤ n ∧ n ≤ 0xDBFF then
                  match rest6 with
                  | '\\' :: 'u' :: g1 :: g2 :: g3 :: g4 :: rest12 =>
                    match hexVal g1, hexVal g2, hexVal g3, hexVal g4 with
                    | some a', some b', some c', some d' =>
                      let m := a' * 0x1000 + b' * 0x100 + c' * 0x10 + d'
                      if 0xDC00 ≤ m ∧ m ≤ 0xDFFF then
                        (parseStringBody rest12).map (fun p =>
                          (Char.ofNat (0x10000 + (n - 0xD800) * 0x400 + (m - 0xDC00)) :: p.1, p.2))
                      else none
                    | _, _, _, _ => none
                  | _ => none
                else if 0xDC00 ≤ n ∧ n ≤ 0xDFFF then none
                else (parseStringBody rest6).map (fun p => (Char.ofNat n :: p.1, p.2))
              | _, _, _, _ => none
            | _ => none
          else none
    else if c.toNat < 0x20 then none
    else (parseStringBody rest).map (fun p => (c :: p.1, p.2))

def isDigit (c : Char) : Bool := 48 ≤ c.toNat && c.toNat ≤ 57

def digitsToNat (l : List Char) : Nat := l.foldl (fun a c => a * 10 + (c.toNat - 48)) 0

/-- The smallest positive value that rounds to infinity in IEEE binary64
(round to nearest, ties to even).  serde_json::from_str rejects any number
whose magnitude reaches it with a number-out-of-range error. -/
def f64OverflowThreshold : Nat := 2 ^ 1024 - 2 ^ 970

/-- Parse a JSON number (sign, integer part without redundant leading zeros,
optional fraction, optional exponent) into its exact rational value, paired
with the flag marking serde_json unsigned-integer representation (no sign, no
fraction, no exponent, value below 2 to the 64).  A magnitude at or above the
binary64 overflow threshold is a parse error, as in serde_json. -/
def parseNumber (l : List Char) : Option ((Rat × Bool) × List Char) :=
  let signSplit : Bool × List Char :=
    match l with
    | '-' :: r => (true, r)
    | _ => (false, l)
  let neg := signSplit.1
  let l1 := signSplit.2
  let intSplit := l1.span isDigit
  match intSplit.1 with
  | [] => none
  | d0 :: ds =>
    if d0 = '0' ∧ ds ≠ [] then none
    else
      let i := digitsToNat intSplit.1
      let l2 := intSplit.2
      let fracSplit : Option (List Char × List Char) :=
        match l2 with
        | '.' :: r =>
          let s := r.span isDigit
          if s.1 = [] then none else some (s.1, s.2)
        | _ => some ([], l2)
      match fracSplit with
      | none => none
      | some (fds, l3) =>
        let expSplit : Option ((Int × Bool) × List Char) :=
          match l3 with
          | 'e' :: r | 'E' :: r =>
            let se : Bool × List Char :=
              match r with
              | '+' :: r2 => (false, r2)
              | '-' :: r2 => (true, r2)
              | _ => (false, r)
            let es := se.2.span isDigit
            if es.1 = [] then none
            else some ((if se.1 then -(digitsToNat es.1 : Int) else (digitsToNat es.1 : Int),
              true), es.2)
          | _ => some ((0, false), l3)
        match expSplit with
        | none => none
        | some (ex, l4) =>
          let e := ex.1
          let mantissa : Int := (i * 10 ^ fds.length + digitsToNat fds : Nat)
          let mantissa := if neg then -mantissa else mantissa
          let scale : Int := e - (fds.length : Int)
          let q : Rat :=
            if 0 ≤ scale then (mantissa : Rat) * ((10 ^ scale.toNat : Nat) : Rat)
            else (mantissa : Rat) / ((10 ^ (-scale).toNat : Nat) : Rat)
          if (f64OverflowThreshold : Rat) ≤ |q| then none
          else some ((q, !neg && fds.isEmpty && !ex.2 && decide (i < 2 ^ 64)), l4)

/-- Task selector for the single fuelled recursive JSON parsing function:
parse one value, the items of an array after the opening bracket, or the
fields of an object after the opening brace.  The depth component models the
serde_json recursion limit of 128 nested composites. -/
inductive JTask where
  | val (depth : Nat)
  | arrItems (depth : Nat)
  | objFields (depth : Nat)

inductive JOut where
  | val (v : Json)
  | items (vs : List Json)
  | fields (fs : List (List Char × Json))

/-- Insert a parsed object field in front of the fields parsed after it; with
a duplicate key the later occurrence wins, as with serde_json map insertion. -/
def objCons (k : List Char) (v : Json) (fs : List (List Char × Json)) :
    List (List Char × Json) :=
  if (fs.find? (fun kv => decide (kv.1 = k))).isSome then fs else (k, v) :: fs

def parseJ : Nat → JTask → List Char → Option (JOut × List Char)
  | 0, _, _ => none
  | fuel + 1, JTask.val d, l =>
    match skipWs l with
    | [] => none
    | c :: rest =>
      if c = 'n' then
        match rest with
        | 'u' :: 'l' :: 'l' :: r => some (JOut.val Json.null, r)
        | _ => none
      else if c = 't' then
        match rest with
        | 'r' :: 'u' :: 'e' :: r => some (JOut.val (Json.bool true), r)
        | _ => none
      else if c = 'f' then
        match rest with
        | 'a' :: 'l' :: 's' :: 'e' :: r => some (JOut.val (Json.bool false), r)
        | _ => none
      else if c = '"' then
        (parseStringBody rest).map (fun p => (JOut.val (Json.str p.1), p.2))
      else if c = '[' then
        match d with
        | 0 => none
        | d' + 1 =>
          match skipWs rest with
          | ']' :: r => some (JOut.val (Json.arr []), r)
          | _ =>
            match parseJ fuel (JTask.arrItems d') rest with
            | some (JOut.items vs, r) => some (JOut.val (Json.arr vs), r)
            | _ => none
      else if c = '{' then
        match d with
        | 0 => none
        | d' + 1 =>
          match skipWs rest with
          | '}' :: r => some (JOut.val (Json.obj []), r)
          | _ =>
            match parseJ fuel (JTask.objFields d') rest with
            | some (JOut.fields fs, r) => some (JOut.val (Json.obj fs), r)
            | _ => none
      else if c = '-' || isDigit c then
        (parseNumber (c :: rest)).map (fun p => (JOut.val (Json.num p.1.1 p.1.2), p.2))
      else none
  | fuel + 1, JTask.arrItems d, l =>
    match parseJ fuel (JTask.val d) l with
    | some (JOut.val v, r) =>
      (match skipWs r with
       | ',' :: r2 =>
         match parseJ fuel (JTask.arrItems d) r2 with
         | some (JOut.items vs, r3) => some (JOut.items (v :: vs), r3)
         | _ => none
       | ']' :: r2 => some (JOut.items [v], r2)
       | _ => none)
    | _ => none
  | fuel + 1, JTask.objFields d, l =>
    match skipWs l with
    | '"' :: rest =>
      (match parseStringBody rest with
       | some (k, r1) =>
         match skipWs r1 with
         | ':' :: r2 =>
           (match parseJ fuel (JTask.val d) r2 with
            | some (JOut.val v, r3) =>
              (match skipWs r3 with
               | ',' :: r4 =>
                 match parseJ fuel (JTask.objFields d) r4 with
                 | some (JOut.fields fs, r5) => some (JOut.fields (objCons k v fs), r5)
                 | _ => none
               | '}' :: r4 => some (JOut.fields [(k, v)], r4)
               | _ => none)
            | _ => none)
         | _ => none
       | none => none)
    | _ => none

/-- Model of serde_json::from_str for Value: parse one JSON value, allowing
only whitespace around it.  The fuel is an upper bound on the recursion of
parseJ, which always consumes input between nested calls. -/
def json_from_str (l : List Char) : Option Json :=
  match parseJ (3 * l.length + 8) (JTask.val 128) l with
  | some (JOut.val v, rest) => if skipWs rest = [] then some v else none
  | _ => none

/-! Model of the StreamMessage enum of parser.rs and of its serde
deserialization (internally tagged by the "type" field, unknown tags falling
back to the Unknown variant, unknown fields collected into the flattened
extra value). -/

structure ErrorInfo where
  message : List Char
  error_type : Option (List Char)

inductive StreamMessage where
  | System (session_id : Option (List Char)) (extra : Json)
  | Assistant (role : List Char) (content : Json) (extra : Json)
  | ToolUse (id : List Char) (name : List Char) (input : Json) (extra : Json)
  | ToolResult (tool_use_id : List Char) (content : Json) (is_error : Bool) (extra : Json)
  | Result (cost_usd : Option Rat) (duration_ms : Option Nat) (extra : Json)
  | Error (error : ErrorInfo) (extra : Json)
  | ContentBlockDelta (index : Nat) (delta : Json) (extra : Json)
  | ContentBlockStart (index : Nat) (content_block : Json) (extra : Json)
  | ContentBlockStop (index : Nat) (extra : Json)
  | Unknown

/-- Look a field up in an object field list. -/
def jGet (fs : List (List Char × Json)) (k : List Char) : Option Json :=
  (fs.find? (fun kv => decide (kv.1 = k))).map (fun kv => kv.2)

/-- Drop the named fields; what is left feeds the flattened extra value. -/
def jRemove (fs : List (List Char × Json)) (ks : List (List Char)) :
    List (List Char × Json) :=
  fs.filter (fun kv => !(ks.contains kv.1))

/-- A required String field: present and a JSON string, anything else is a
deserialization error. -/
def fieldStrReq (fs : List (List Char × Json)) (k : List Char) : Option (List Char) :=
  match jGet fs k with
  | some (Json.str s) => some s
  | _ => none

/-- A String field with serde(default): absent gives the empty string, present
must be a JSON string. -/
def fieldStrDef (fs : List (List Char × Json)) (k : List Char) : Option (List Char) :=
  match jGet fs k with
  | none => some []
  | some (Json.str s) => some s
  | some _ => none

/-- An Option String field with serde(default): absent or null gives none,
a string gives some, anything else is a deserialization error. -/
def fieldOptStr (fs : List (List Char × Json)) (k : List Char) :
    Option (Option (List Char)) :=
  match jGet fs k with
  | none => some none
  | some Json.null => some none
  | some (Json.str s) => some (some s)
  | some _ => none

/-- A serde_json Value field with serde(default): absent gives Value::Null and
any present value succeeds. -/
def fieldValDef (fs : List (List Char × Json)) (k : List Char) : Json :=
  match jGet fs k with
  | none => Json.null
  | some v => v

/-- A bool field with serde(default). -/
def fieldBoolDef (fs : List (List Char × Json)) (k : List Char) : Option Bool :=
  match jGet fs k with
  | none => some false
  | some (Json.bool b) => some b
  | some _ => none

/-- An Option f64 field with serde(default). -/
def fieldOptNum (fs : List (List Char × Json)) (k : List Char) : Option (Option Rat) :=
  match jGet fs k with
  | none => some none
  | some Json.null => some none
  | some (Json.num q _) => some (some q)
  | some _ => none

/-- Reading a JSON number as u64 (or usize): serde only succeeds when the
number sits in the unsigned-integer arm of its Number type; a number carrying
a sign, a fraction or an exponent (1.0, 12e2, -1) is stored in the i64 or f64
arm and fails u64 deserialization even when its value is a small integer. -/
def numAsU64 (q : Rat) (uint : Bool) : Option Nat :=
  if uint then some q.num.toNat else none

def fieldOptU64 (fs : List (List Char × Json)) (k : List Char) : Option (Option Nat) :=
  match jGet fs k with
  | none => some none
  | some Json.null => some none
  | some (Json.num q uint) => (numAsU64 q uint).map some
  | some _ => none

/-- A usize field with serde(default): absent gives zero. -/
def fieldUsizeDef (fs : List (List Char × Json)) (k : List Char) : Option Nat :=
  match jGet fs k with
  | none => some 0
  | some (Json.num q uint) => numAsU64 q uint
  | some _ => none

/-- Deserialization of the ErrorInfo struct (all fields defaulted, unknown
fields ignored); a non-object value is a deserialization error. -/
def decodeErrorInfo (v : Json) : Option ErrorInfo :=
  match v with
  | Json.obj fs =>
    match fieldStrDef fs ("message".toList), fieldOptStr fs ("error_type".toList) with
    | some m, some t => some (ErrorInfo.mk m t)
    | _, _ => none
  | _ => none

/-- An ErrorInfo field with serde(default). -/
def fieldErrorInfoDef (fs : List (List Char × Json)) (k : List Char) : Option ErrorInfo :=
  match jGet fs k with
  | none => some (ErrorInfo.mk [] none)
  | some v => decodeErrorInfo v

/-- Deserialization of a JSON value into StreamMessage, modelling the serde
internally-tagged enum: the value must be an object with a string under the
"type" key; a tag matching no variant yields Unknown via serde(other); a
variant whose fields cannot be deserialized is an error (none). -/
def decodeStreamMessage (v : Json) : Option StreamMessage :=
  match v with
  | Json.obj fs =>
    match jGet fs ("type".toList) with
    | some (Json.str tag) =>
      if tag = "system".toList then
        match fieldOptStr fs ("session_id".toList) with
        | some sid =>
          some (StreamMessage.System sid
            (Json.obj (jRemove fs ["type".toList, "session_id".toList])))
        | none => none
      else if tag = "message".toList then
        match fieldStrDef fs ("role".toList) with
        | some role =>
          some (StreamMessage.Assistant role (fieldValDef fs ("content".toList))
            (Json.obj (jRemove fs ["type".toList, "role".toList, "content".toList])))
        | none => none
      else if tag = "tool_use".toList then
        match fieldStrReq fs ("id".toList), fieldStrReq fs ("name".toList) with
        | some i, some n =>
          some (StreamMessage.ToolUse i n (fieldValDef fs ("input".toList))
            (Json.obj (jRemove fs ["type".toList, "id".toList, "name".toList, "input".toList])))
        | _, _ => none
      else if tag = "tool_result".toList then
        match fieldStrReq fs ("tool_use_id".toList), fieldBoolDef fs ("is_error".toList) with
        | some tid, some ie =>
          some (StreamMessage.ToolResult tid (fieldValDef fs ("content".toList)) ie
            (Json.obj (jRemove fs
              ["type".toList, "tool_use_id".toList, "content".toList, "is_error".toList])))
        | _, _ => none
      else if tag = "result".toList then
        match fieldOptNum fs ("cost_usd".toList), fieldOptU64 fs ("duration_ms".toList) with
        | some cu, some dm =>
          some (StreamMessage.Result cu dm
            (Json.obj (jRemove fs ["type".toList, "cost_usd".toList, "duration_ms".toList])))
        | _, _ => none
      else if tag = "error".toList then
        match fieldErrorInfoDef fs ("error".toList) with
        | some ei =>
          some (StreamMessage.Error ei (Json.obj (jRemove fs ["type".toList, "error".toList])))
        | none => none
      else if tag = "content_block_delta".toList then
        match fieldUsizeDef fs ("index".toList) with
        | some ix =>
          some (StreamMessage.ContentBlockDelta ix (fieldValDef fs ("delta".toList))
            (Json.obj (jRemove fs ["type".toList, "index".toList, "delta".toList])))
        | none => none
      else if tag = "content_block_start".toList then
        match fieldUsizeDef fs ("index".toList) with
        | some ix =>
          some (StreamMessage.ContentBlockStart ix (fieldValDef fs ("content_block".toList))
            (Json.obj (jRemove fs ["type".toList, "index".toList, "content_block".toList])))
        | none => none
      else if tag = "content_block_stop".toList then
        match fieldUsizeDef fs ("index".toList) with
        | some ix =>
          some (StreamMessage.ContentBlockStop ix
            (Json.obj (jRemove fs ["type".toList, "index".toList])))
        | none => none
      else some StreamMessage.Unknown
    | _ => none
  | _ => none

/-! The stream parser itself (struct StreamJsonParser of parser.rs). -/

structure StreamJsonParser where
  buffer : List Char

/-- Model of serde_json::from_str for StreamMessage: the same JSON syntax as
from_str for Value followed by the internally-tagged enum deserialization. -/
def from_str_stream_message (line : List Char) : Option StreamMessage :=
  (json_from_str line).bind decodeStreamMessage

/-- StreamJsonParser::parse_line: first try to deserialize the known message
shapes; on failure, parse as a generic JSON value and wrap in Unknown; if even
that fails the result is an error, modelled as none. -/
def parse_line (line : List Char) : Option StreamMessage :=
  match from_str_stream_message line with
  | some msg => some msg
  | none => (json_from_str line).map (fun _ => StreamMessage.Unknown)

/-- The per-line treatment inside the parse_chunk loop: trim the line, strip
trailing carriage returns, skip it if blank, and otherwise keep the parsed
message, dropping the line on a parse error. -/
def lineMessages (rawLine : List Char) : List StreamMessage :=
  let line := trimEndCR (rustTrim rawLine)
  if line = [] then []
  else
    match parse_line line with
    | some msg => [msg]
    | none => []

/-- The text-level core of StreamJsonParser::parse_chunk, after the chunk has
been reinterpreted as text: append the chunk to the buffer, process every
newline-terminated line in order, keep the unterminated remainder. -/
def parse_chunk_str (p : StreamJsonParser) (s : List Char) : StreamJsonParser × List StreamMessage :=
  let split := splitNl (p.buffer ++ s)
  (StreamJsonParser.mk split.2, (split.1.map lineMessages).flatten)

/-- StreamJsonParser::parse_chunk on a byte chunk: if the chunk is not valid
UTF-8 it is dropped entirely (no messages, buffer unchanged); otherwise the
decoded text is fed to the buffer and complete lines are processed. -/
def parse_chunk (p : StreamJsonParser) (chunk : List Nat) : StreamJsonParser × List StreamMessage :=
  match utf8Decode chunk with
  | none => (p, [])
  | some s => parse_chunk_str p s

/-- Feed a sequence of byte chunks one parse_chunk call at a time, collecting
all produced messages in order. -/
def parse_chunks : StreamJsonParser → List (List Nat) → StreamJsonParser × List StreamMessage
  | p, [] => (p, [])
  | p, c :: cs =>
    let r1 := parse_chunk p c
    let r2 := parse_chunks r1.1 cs
    (r2.1, r1.2 ++ r2.2)

/-- Feed a sequence of already-decoded text chunks one at a time. -/
def parse_chunks_str : StreamJsonParser → List (List Char) → StreamJsonParser × List StreamMessage
  | p, [] => (p, [])
  | p, c :: cs =>
    let r1 := parse_chunk_str p c
    let r2 := parse_chunks_str r1.1 cs
    (r2.1, r1.2 ++ r2.2)

/-- StreamJsonParser::flush: if the trimmed buffer is empty return none (the
buffer is left as it is); otherwise parse the trimmed buffer as one final
line, discarding any error, and clear the buffer regardless of the outcome. -/
def flush (p : StreamJsonParser) : StreamJsonParser × Option StreamMessage :=
  if rustTrim p.buffer = [] then (p, none)
  else (StreamJsonParser.mk [], parse_line (rustTrim p.buffer))

/-- StreamJsonParser::clear. -/
def clear (_ : StreamJsonParser) : StreamJsonParser := StreamJsonParser.mk []

/-- StreamJsonParser::has_pending: true iff the buffer holds non-whitespace
content. -/
def has_pending (p : StreamJsonParser) : Bool := !(rustTrim p.buffer).isEmpty

/-! Model of the process manager (process.rs).  The registry of sessions is an
association list keyed by the app session id; locking is modelled away by
treating each exposed operation, and each step of the background reader task,
as an atomic state transition.  The OS-level effects (working-directory check,
uuid generation, clock, process spawn) enter as explicit parameters; a spawned
child process handle is modelled by a natural number. -/

inductive SessionStatus where
  | Idle
  | Thinking
  | Error
  | Terminated
deriving DecidableEq

structure SessionConfig where
  working_dir : List Char
  model : List Char
  allowed_tools : List (List Char)

structure SessionInfo where
  id : List Char
  claude_session_id : Option (List Char)
  working_dir : List Char
  model : List Char
  status : SessionStatus
  created_at : Nat
  prompt_count : Nat
  total_cost_usd : Rat

structure Session where
  info : SessionInfo
  config : SessionConfig
  active_process : Option Nat

structure ProcessManager where
  sessions : List (List Char × Session)

inductive ProcessError where
  | SessionNotFound (id : List Char)
  | SpawnFailed
  | SessionExists (id : List Char)
  | SessionBusy
  | InvalidWorkingDir (p : List Char)
  | ProcessTerminated
deriving DecidableEq

/-- HashMap::get on the registry. -/
def mgrLookup (m : ProcessManager) (sid : List Char) : Option Session :=
  (m.sessions.find? (fun kv => decide (kv.1 = sid))).map (fun kv => kv.2)

/-- Point update of one registered session (a mutation made under that
session's lock); absent ids are left untouched. -/
def mgrUpdate (m : ProcessManager) (sid : List Char) (f : Session → Session) :
    ProcessManager :=
  ProcessManager.mk (m.sessions.map (fun kv => if kv.1 = sid then (kv.1, f kv.2) else kv))

/-- ProcessManager::create_session.  The existence check on the working
directory and the generated uuid and clock reading are supplied as parameters
(dir_exists, fresh_id, now). -/
def create_session (m : ProcessManager) (config : SessionConfig)
    (fresh_id : List Char) (now : Nat) (dir_exists : Bool) :
    ProcessManager × Except ProcessError (List Char) :=
  if !dir_exists then (m, Except.error (ProcessError.InvalidWorkingDir config.working_dir))
  else if (mgrLookup m fresh_id).isSome then
    (m, Except.error (ProcessError.SessionExists fresh_id))
  else
    (ProcessManager.mk (m.sessions ++ [(fresh_id,
      Session.mk
        (SessionInfo.mk fresh_id none config.working_dir config.model
          SessionStatus.Idle now 0 0)
        config none)]),
     Except.ok fresh_id)

/-- ProcessManager::send_prompt up to the point where the call returns.  The
OS spawn outcome is the parameter: none models a spawn error, some h a child
process with handle h.  A returned ok h means the reader task has been
launched on handle h; every error return means no process was spawned or
stored and no reader task was started. -/
def send_prompt (m : ProcessManager) (sid : List Char) (spawn : Option Nat) :
    ProcessManager × Except ProcessError Nat :=
  match mgrLookup m sid with
  | none => (m, Except.error (ProcessError.SessionNotFound sid))
  | some s =>
    if s.info.status = SessionStatus.Thinking then
      (m, Except.error ProcessError.SessionBusy)
    else
      match spawn with
      | none => (m, Except.error ProcessError.SpawnFailed)
      | some h =>
        (mgrUpdate m sid (fun s =>
          Session.mk
            { s.info with status := SessionStatus.Thinking,
                          prompt_count := s.info.prompt_count + 1 }
            s.config (some h)),
         Except.ok h)

/-- One message handled by the reader task spawned in send_prompt: a System
message carrying a session id is recorded only if none is recorded yet
(first writer wins), and the cost carried by a Result message is added to the
accumulated total. -/
def reader_on_message (info : SessionInfo) (msg : StreamMessage) : SessionInfo :=
  let info1 :=
    match msg with
    | StreamMessage.System (some claude_id) _ =>
      if info.claude_session_id = none then
        { info with claude_session_id := some claude_id }
      else info
    | _ => info
  match msg with
  | StreamMessage.Result (some cost) _ _ =>
    { info1 with total_cost_usd := info1.total_cost_usd + cost }
  | _ => info1

/-- The reader task processing a whole sequence of decoded messages. -/
def reader_process (info : SessionInfo) (msgs : List StreamMessage) : SessionInfo :=
  msgs.foldl reader_on_message info

/-- The reader task's per-message update applied through the registry; if the
session has been removed meanwhile the update is skipped. -/
def reader_apply_msg (m : ProcessManager) (sid : List Char) (msg : StreamMessage) :
    ProcessManager :=
  mgrUpdate m sid (fun s => Session.mk (reader_on_message s.info msg) s.config s.active_process)

/-- The reader task's end-of-stream step: status back to Idle, process slot
cleared. -/
def reader_finish (m : ProcessManager) (sid : List Char) : ProcessManager :=
  mgrUpdate m sid (fun s =>
    Session.mk { s.info with status := SessionStatus.Idle } s.config none)

/-- ProcessManager::interrupt: kill the active process if there is one and
reset to Idle; with no active process nothing is changed. -/
def interrupt (m : ProcessManager) (sid : List Char) :
    ProcessManager × Except ProcessError Unit :=
  match mgrLookup m sid with
  | none => (m, Except.error (ProcessError.SessionNotFound sid))
  | some s =>
    if s.active_process.isSome then
      (mgrUpdate m sid (fun s =>
        Session.mk { s.info with status := SessionStatus.Idle } s.config none),
       Except.ok ())
    else (m, Except.ok ())

/-- ProcessManager::terminate: remove the session from the registry (killing
any active process); an unknown id is not an error. -/
def terminate (m : ProcessManager) (sid : List Char) :
    ProcessManager × Except ProcessError Unit :=
  (ProcessManager.mk (m.sessions.filter (fun kv => !(decide (kv.1 = sid)))), Except.ok ())

/-- ProcessManager::is_alive. -/
def is_alive (m : ProcessManager) (sid : List Char) : Bool :=
  match mgrLookup m sid with
  | some s => decide (s.info.status ≠ SessionStatus.Terminated)
  | none => false

/-- ProcessManager::active_count. -/
def active_count (m : ProcessManager) : Nat := m.sessions.length

/-- ProcessManager::get_sessions. -/
def get_sessions (m : ProcessManager) : List SessionInfo :=
  m.sessions.map (fun kv => kv.2.info)

/-- ProcessManager::get_session. -/
def get_session (m : ProcessManager) (sid : List Char) : Option SessionInfo :=
  (mgrLookup m sid).map (fun s => s.info)

/-- ProcessManager::set_status.  This method exists on the manager but is not
wired to any command of the application (lib.rs registers no caller), so it
does not appear among the reachable transitions below. -/
def set_status (m : ProcessManager) (sid : List Char) (st : SessionStatus) :
    ProcessManager × Except ProcessError Unit :=
  match mgrLookup m sid with
  | none => (m, Except.error (ProcessError.SessionNotFound sid))
  | some _ => (mgrUpdate m sid (fun s =>
      Session.mk { s.info with status := st } s.config s.active_process), Except.ok ())

/-- ProcessManager::terminate_all. -/
def terminate_all (_ : ProcessManager) : ProcessManager := ProcessManager.mk []

/-- The manager states reachable through the operations the application
invokes: the exposed session commands together with the steps of the
background reader tasks. -/
inductive Reachable : ProcessManager → Prop
  | init : Reachable (ProcessManager.mk [])
  | create (m : ProcessManager) (config : SessionConfig) (fresh_id : List Char)
      (now : Nat) (de : Bool) :
      Reachable m → Reachable (create_session m config fresh_id now de).1
  | send (m : ProcessManager) (sid : List Char) (spawn : Option Nat) :
      Reachable m → Reachable (send_prompt m sid spawn).1
  | intr (m : ProcessManager) (sid : List Char) :
      Reachable m → Reachable (interrupt m sid).1
  | term (m : ProcessManager) (sid : List Char) :
      Reachable m → Reachable (terminate m sid).1
  | termAll (m : ProcessManager) :
      Reachable m → Reachable (terminate_all m)
  | readerMsg (m : ProcessManager) (sid : List Char) (msg : StreamMessage) :
      Reachable m → Reachable (reader_apply_msg m sid msg)
  | readerFin (m : ProcessManager) (sid : List Char) :
      Reachable m → Reachable (reader_finish m sid)

/-- The cost figure a decoded message contributes to the accumulated total:
only a Result message carrying a cost does. -/
def costOf (msg : StreamMessage) : Option Rat :=
  match msg with
  | StreamMessage.Result (some cost) _ _ => some cost
  | _ => none

/-- The resumption token a decoded message may carry: only a System message
with a session id does. -/
def tokenOf (msg : StreamMessage) : Option (List Char) :=
  match msg with
  | StreamMessage.System (some claude_id) _ => some claude_id
  | _ => none

/-- Per-session well-formedness: the active-process slot is occupied exactly
while the status is Thinking, and the only statuses a registered session can
show are Idle and Thinking. -/
def SessionOK (s : Session) : Prop :=
  (s.active_process.isSome ↔ s.info.status = SessionStatus.Thinking) ∧
  (s.info.status = SessionStatus.Idle ∨ s.info.status = SessionStatus.Thinking)

/-- Registry well-formedness: distinct keys and every registered session
well-formed. -/
def ManagerOK (m : ProcessManager) : Prop :=
  (m.sessions.map Prod.fst).Nodup ∧
  ∀ kv ∈ m.sessions, SessionOK kv.2

/-! Lemmas about line splitting and chunk composition. -/

theorem splitNl_no_nl (a : List Char) (h : '\n' ∉ a) : splitNl a = ([], a) := by
  induction a with
  | nil => rfl
  | cons c cs ih =>
    have hc : ¬ c = '\n' := fun hh => h (by rw [hh]; exact List.mem_cons_self _ _)
    have hcs : '\n' ∉ cs := fun hm => h (List.mem_cons_of_mem c hm)
    simp [splitNl, hc, ih hcs]

theorem splitNl_append (a b : List Char) :
    splitNl (a ++ b) =
      ((splitNl a).1 ++ (splitNl ((splitNl a).2 ++ b)).1,
       (splitNl ((splitNl a).2 ++ b)).2) := by
  induction a with
  | nil => simp [splitNl]
  | cons c cs ih =>
    by_cases hc : c = '\n'
    · subst hc
      simp [splitNl, ih]
    · cases hsplit : splitNl cs with
      | mk ls r =>
        rw [hsplit] at ih
        cases hy : splitNl (r ++ b) with
        | mk ys yr =>
          rw [hy] at ih
          simp at ih
          cases ls with
          | nil =>
            cases ys with
            | nil => simp [splitNl, hc, hsplit, hy, ih]
            | cons y ys' => simp [splitNl, hc, hsplit, hy, ih]
          | cons l ls' => simp [splitNl, hc, hsplit, hy, ih]

theorem splitNl_line (a b : List Char) (h : '\n' ∉ a) :
    splitNl (a ++ '\n' :: b) = (a :: (splitNl b).1, (splitNl b).2) := by
  induction a with
  | nil => simp [splitNl]
  | cons c cs ih =>
    have hc : ¬ c = '\n' := fun hh => h (by rw [hh]; exact List.mem_cons_self _ _)
    have hcs : '\n' ∉ cs := fun hm => h (List.mem_cons_of_mem c hm)
    simp [splitNl, hc, ih hcs]

/-- Feeding a concatenation of two text chunks in one call produces the same
final state and the same message sequence as feeding the pieces in order. -/
theorem parse_chunk_str_append (p : StreamJsonParser) (s1 s2 : List Char) :
    parse_chunk_str p (s1 ++ s2) =
      ((parse_chunk_str (parse_chunk_str p s1).1 s2).1,
       (parse_chunk_str p s1).2 ++ (parse_chunk_str (parse_chunk_str p s1).1 s2).2) := by
  unfold parse_chunk_str
  have h := splitNl_append (p.buffer ++ s1) s2
  simp only [List.append_assoc] at h
  rw [h]
  simp

/-- Feeding a valid-UTF-8 byte chunk is feeding its decoded text. -/
theorem parse_chunk_of_decode (p : StreamJsonParser) (c : List Nat) (s : List Char)
    (h : utf8Decode c = some s) : parse_chunk p c = parse_chunk_str p s := by
  unfold parse_chunk
  rw [h]

/-! Lemmas about UTF-8 decoding. -/

theorem utf8Step_length (l : List Nat) (c : Char) (r : List Nat)
    (h : utf8Step l = some (c, r)) : r.length < l.length := by
  cases l with
  | nil => simp [utf8Step] at h
  | cons b bs =>
    simp only [utf8Step] at h
    repeat' split at h
    all_goals simp_all
    all_goals omega

theorem utf8Step_append (l t : List Nat) (c : Char) (r : List Nat)
    (h : utf8Step l = some (c, r)) :
    utf8Step (l ++ t) = some (c, r ++ t) := by
  cases l with
  | nil => simp [utf8Step] at h
  | cons b bs =>
    simp only [utf8Step, List.cons_append] at h ⊢
    repeat' split at h
    all_goals simp_all
    all_goals (repeat rw [if_neg (by omega)])

theorem utf8DecodeLoop_fuel (f1 : Nat) :
    ∀ (f2 : Nat) (l : List Nat), l.length ≤ f1 → l.length ≤ f2 →
      utf8DecodeLoop f1 l = utf8DecodeLoop f2 l := by
  induction f1 with
  | zero =>
    intro f2 l h1 _
    have : l = [] := List.length_eq_zero.mp (Nat.le_zero.mp h1)
    subst this
    cases f2 <;> rfl
  | succ g ih =>
    intro f2 l h1 h2
    cases l with
    | nil => cases f2 <;> rfl
    | cons b bs =>
      cases f2 with
      | zero => simp at h2
      | succ g2 =>
        simp only [utf8DecodeLoop]
        cases hs : utf8Step (b :: bs) with
        | none => rfl
        | some p =>
          obtain ⟨c, rest⟩ := p
          have hlt := utf8Step_length _ _ _ hs
          simp only [List.length_cons] at hlt h1 h2
          have key := ih g2 rest (by omega) (by omega)
          simp [key]

theorem utf8Decode_cons_some (l : List Nat) (c : Char) (rest : List Nat)
    (h : utf8Step l = some (c, rest)) :
    utf8Decode l = (utf8Decode rest).map (fun s => c :: s) := by
  cases l with
  | nil => simp [utf8Step] at h
  | cons b bs =>
    have hlt := utf8Step_length _ _ _ h
    simp only [List.length_cons] at hlt
    unfold utf8Decode
    simp only [List.length_cons, utf8DecodeLoop, h]
    rw [utf8DecodeLoop_fuel bs.length rest.length rest (by omega) (le_refl _)]

theorem utf8Decode_cons_none (b : Nat) (bs : List Nat)
    (h : utf8Step (b :: bs) = none) : utf8Decode (b :: bs) = none := by
  unfold utf8Decode
  simp [utf8DecodeLoop, h]

theorem utf8Decode_append_aux (b : List Nat) (t : List Char)
    (hb : utf8Decode b = some t) :
    ∀ (n : Nat) (a : List Nat) (s : List Char), a.length ≤ n →
      utf8Decode a = some s → utf8Decode (a ++ b) = some (s ++ t) := by
  intro n
  induction n with
  | zero =>
    intro a s hlen ha
    have : a = [] := List.length_eq_zero.mp (Nat.le_zero.mp hlen)
    subst this
    have hs : s = [] := by
      have : (some [] : Option (List Char)) = some s := ha
      cases this
      rfl
    subst hs
    simpa using hb
  | succ n ih =>
    intro a s hlen ha
    cases a with
    | nil =>
      have hs : s = [] := by
        have : (some [] : Option (List Char)) = some s := ha
        cases this
        rfl
      subst hs
      simpa using hb
    | cons x xs =>
      cases hs : utf8Step (x :: xs) with
      | none => rw [utf8Decode_cons_none _ _ hs] at ha; cases ha
      | some p =>
        obtain ⟨c, rest⟩ := p
        rw [utf8Decode_cons_some _ _ _ hs] at ha
        cases hr : utf8Decode rest with
        | none => rw [hr] at ha; cases ha
        | some s' =>
          rw [hr] at ha
          simp at ha
          have hlt := utf8Step_length _ _ _ hs
          simp only [List.length_cons] at hlt hlen
          have h2 := utf8Step_append _ b _ _ hs
          rw [List.cons_append] at h2
          rw [List.cons_append, utf8Decode_cons_some _ _ _ h2,
            ih rest s' (by omega) hr]
          simp [← ha]

theorem utf8Decode_append (a b : List Nat) (s t : List Char)
    (ha : utf8Decode a = some s) (hb : utf8Decode b = some t) :
    utf8Decode (a ++ b) = some (s ++ t) :=
  utf8Decode_append_aux b t hb a.length a s (le_refl _) ha

theorem splitNl_rem_no_nl (l : List Char) : '\n' ∉ (splitNl l).2 := by
  induction l with
  | nil => simp [splitNl]
  | cons c cs ih =>
    by_cases hc : c = '\n'
    · subst hc
      simpa [splitNl] using ih
    · cases hsplit : splitNl cs with
      | mk ls r =>
        rw [hsplit] at ih
        cases ls with
        | nil =>
          simp [splitNl, hc, hsplit]
          exact ⟨fun hh => hc hh.symm, ih⟩
        | cons l0 ls' => simpa [splitNl, hc, hsplit] using ih

theorem utf8Decode_flatten (cs : List (List Nat))
    (h : ∀ c ∈ cs, (utf8Decode c).isSome) :
    (utf8Decode cs.flatten).isSome := by
  induction cs with
  | nil => simp [utf8Decode, utf8DecodeLoop]
  | cons c cs' ih =>
    have hc := h c (List.mem_cons_self _ _)
    have hcs : ∀ x ∈ cs', (utf8Decode x).isSome :=
      fun x hx => h x (List.mem_cons_of_mem _ hx)
    obtain ⟨s, hsome⟩ := Option.isSome_iff_exists.mp hc
    obtain ⟨u, husome⟩ := Option.isSome_iff_exists.mp (ih hcs)
    simp only [List.flatten_cons]
    rw [utf8Decode_append c cs'.flatten s u hsome husome]
    rfl

/-- The buffer left by a parse_chunk_str call never holds a newline. -/
theorem parse_chunk_str_buffer (p : StreamJsonParser) (s : List Char) :
    '\n' ∉ (parse_chunk_str p s).1.buffer := by
  unfold parse_chunk_str
  exact splitNl_rem_no_nl (p.buffer ++ s)

/-- Chunked and single-call feeding agree on every sequence of individually
valid UTF-8 chunks, for any start state whose buffer holds no newline (an
invariant of all states the parser can actually be in). -/
theorem parse_chunks_eq_flatten (chunks : List (List Nat)) :
    ∀ (p : StreamJsonParser), '\n' ∉ p.buffer →
      (∀ c ∈ chunks, (utf8Decode c).isSome) →
      parse_chunks p chunks = parse_chunk p chunks.flatten := by
  induction chunks with
  | nil =>
    intro p hb _
    have : utf8Decode ([] : List (List Nat)).flatten = some [] := rfl
    simp only [parse_chunks, parse_chunk, this, parse_chunk_str]
    rw [List.append_nil, splitNl_no_nl p.buffer hb]
    simp
  | cons c cs ih =>
    intro p hb h
    have hc := h c (List.mem_cons_self _ _)
    have hcs : ∀ x ∈ cs, (utf8Decode x).isSome :=
      fun x hx => h x (List.mem_cons_of_mem _ hx)
    obtain ⟨s, hsome⟩ := Option.isSome_iff_exists.mp hc
    obtain ⟨u, husome⟩ := Option.isSome_iff_exists.mp (utf8Decode_flatten cs hcs)
    have hflat : utf8Decode (c :: cs).flatten = some (s ++ u) := by
      rw [List.flatten_cons]
      exact utf8Decode_append _ _ _ _ hsome husome
    rw [parse_chunk_of_decode p _ _ hflat]
    rw [parse_chunk_str_append p s u]
    have hb' : '\n' ∉ (parse_chunk_str p s).1.buffer := parse_chunk_str_buffer p s
    have ihx := ih (parse_chunk_str p s).1 hb' hcs
    rw [parse_chunk_of_decode _ _ _ husome] at ihx
    simp only [parse_chunks, parse_chunk_of_decode p c s hsome, ihx]

/-! Lemmas about individual lines. -/

theorem lineMessages_of_invalid (a : List Char)
    (h : json_from_str (trimEndCR (rustTrim a)) = none) : lineMessages a = [] := by
  unfold lineMessages
  by_cases he : trimEndCR (rustTrim a) = []
  · simp [he]
  · simp only [he, if_false]
    unfold parse_line from_str_stream_message
    rw [h]
    rfl

/-- A first line that contributes no message (for example one of invalid JSON)
leaves the rest of the stream to be decoded exactly as if it were absent. -/
theorem parse_chunk_str_drop_line (bad c : List Char) (hnl : '\n' ∉ bad)
    (hempty : lineMessages bad = []) :
    parse_chunk_str (StreamJsonParser.mk []) (bad ++ '\n' :: c) =
      parse_chunk_str (StreamJsonParser.mk []) c := by
  unfold parse_chunk_str
  simp only [splitNl_line bad c hnl, List.nil_append, List.map_cons, List.flatten_cons,
    hempty]

theorem mgrLookup_update (m : ProcessManager) (sid : List Char) (f : Session → Session)
    (sid' : List Char) :
    mgrLookup (mgrUpdate m sid f) sid' =
      if sid' = sid then (mgrLookup m sid').map f else mgrLookup m sid' := by
  obtain ⟨l⟩ := m
  simp only [mgrLookup, mgrUpdate]
  induction l with
  | nil => simp [List.find?]
  | cons kv l ih =>
    obtain ⟨k, s⟩ := kv
    by_cases h1 : k = sid
    · subst h1
      by_cases h2 : sid' = k
      · subst h2
        simp [List.find?]
      · simp only [List.map_cons, if_pos rfl]
        rw [List.find?_cons_of_neg _ (by simp; exact fun hh => h2 hh.symm),
          List.find?_cons_of_neg _ (by simp; exact fun hh => h2 hh.symm)]
        simpa [h2] using ih
    · by_cases h2 : sid' = k
      · subst h2
        simp [List.find?, h1]
      · simp only [List.map_cons, if_neg h1]
        rw [List.find?_cons_of_neg _ (by simp; exact fun hh => h2 hh.symm),
          List.find?_cons_of_neg _ (by simp; exact fun hh => h2 hh.symm)]
        exact ih

theorem mgrUpdate_keys (m : ProcessManager) (sid : List Char) (f : Session → Session) :
    (mgrUpdate m sid f).sessions.map Prod.fst = m.sessions.map Prod.fst := by
  obtain ⟨l⟩ := m
  simp only [mgrUpdate, List.map_map]
  apply List.map_congr_left
  intro kv _
  by_cases h1 : kv.1 = sid
  · simp [Function.comp, h1]
  · simp [Function.comp, h1]

theorem mgrUpdate_length (m : ProcessManager) (sid : List Char) (f : Session → Session) :
    (mgrUpdate m sid f).sessions.length = m.sessions.length := by
  simp [mgrUpdate]

theorem mgrLookup_isSome_iff_mem (m : ProcessManager) (sid : List Char) :
    (mgrLookup m sid).isSome ↔ sid ∈ m.sessions.map Prod.fst := by
  obtain ⟨l⟩ := m
  simp only [mgrLookup]
  induction l with
  | nil => simp [List.find?]
  | cons kv l ih =>
    obtain ⟨k, s⟩ := kv
    by_cases h1 : k = sid
    · subst h1
      rw [List.find?_cons_of_pos _ (by simp)]
      constructor
      · intro _
        simp only [List.map_cons]
        exact List.mem_cons_self _ _
      · intro _
        rfl
    · rw [List.find?_cons_of_neg _ (by simp; exact h1)]
      simp only [List.map_cons, List.mem_cons]
      rw [← ih]
      constructor
      · intro hh
        exact Or.inr hh
      · intro hh
        cases hh with
        | inl heq => exact absurd heq.symm h1
        | inr hmem => exact hmem

theorem managerOK_lookup (m : ProcessManager) (sid : List Char) (s : Session)
    (hOK : ManagerOK m) (h : mgrLookup m sid = some s) : SessionOK s := by
  unfold mgrLookup at h
  obtain ⟨kv, hfind, hsnd⟩ := Option.map_eq_some'.mp h
  exact hsnd ▸ hOK.2 kv (List.mem_of_find?_eq_some hfind)

theorem filter_keep_of_not_mem (l : List (List Char × Session)) (sid : List Char)
    (h : sid ∉ l.map Prod.fst) :
    l.filter (fun kv => !(decide (kv.1 = sid))) = l := by
  induction l with
  | nil => rfl
  | cons kv l ih =>
    obtain ⟨k, s⟩ := kv
    simp only [List.map_cons, List.mem_cons] at h
    push_neg at h
    obtain ⟨h1, h2⟩ := h
    rw [List.filter_cons_of_pos (by simp; exact fun hh => h1 hh.symm)]
    rw [ih h2]

theorem filter_length_of_mem (l : List (List Char × Session)) (sid : List Char)
    (hnd : (l.map Prod.fst).Nodup) (hmem : sid ∈ l.map Prod.fst) :
    (l.filter (fun kv => !(decide (kv.1 = sid)))).length + 1 = l.length := by
  induction l with
  | nil => simp at hmem
  | cons kv l ih =>
    obtain ⟨k, s⟩ := kv
    simp only [List.map_cons, List.nodup_cons] at hnd
    simp only [List.map_cons, List.mem_cons] at hmem
    by_cases h1 : k = sid
    · subst h1
      rw [List.filter_cons_of_neg (by simp)]
      rw [filter_keep_of_not_mem l k hnd.1]
      simp
    · have hmem' : sid ∈ l.map Prod.fst := by
        cases hmem with
        | inl heq => exact absurd heq.symm h1
        | inr hm => exact hm
      rw [List.filter_cons_of_pos (by simp; exact fun hh => h1 hh)]
      simp only [List.length_cons]
      rw [← ih hnd.2 hmem']

theorem managerOK_empty : ManagerOK (ProcessManager.mk []) := by
  constructor
  · simp
  · intro kv hkv
    simp at hkv

theorem managerOK_update (m : ProcessManager) (sid : List Char) (f : Session → Session)
    (hOK : ManagerOK m) (hf : ∀ s, SessionOK s → SessionOK (f s)) :
    ManagerOK (mgrUpdate m sid f) := by
  constructor
  · rw [mgrUpdate_keys]
    exact hOK.1
  · intro kv hkv
    simp only [mgrUpdate, List.mem_map] at hkv
    obtain ⟨kv0, hkv0, rfl⟩ := hkv
    by_cases h1 : kv0.1 = sid
    · rw [if_pos h1]
      exact hf _ (hOK.2 kv0 hkv0)
    · rw [if_neg h1]
      exact hOK.2 kv0 hkv0

theorem reader_on_message_status (info : SessionInfo) (msg : StreamMessage) :
    (reader_on_message info msg).status = info.status := by
  unfold reader_on_message
  cases msg with
  | System sid extra =>
    cases sid with
    | none => rfl
    | some cid => by_cases hc : info.claude_session_id = none <;> simp [hc]
  | Result c d e => cases c <;> rfl
  | Assistant r c e => rfl
  | ToolUse a b c d => rfl
  | ToolResult a b c d => rfl
  | Error a b => rfl
  | ContentBlockDelta a b c => rfl
  | ContentBlockStart a b c => rfl
  | ContentBlockStop a b => rfl
  | Unknown => rfl

theorem reachable_ok (m : ProcessManager) (h : Reachable m) : ManagerOK m := by
  induction h with
  | init => exact managerOK_empty
  | create m config fresh_id now de hm ihm =>
    unfold create_session
    by_cases hde : de = true
    · rw [if_neg (by simp [hde])]
      by_cases hex : (mgrLookup m fresh_id).isSome = true
      · rw [if_pos hex]
        exact ihm
      · rw [if_neg hex]
        constructor
        · simp only [List.map_append, List.map_cons, List.map_nil]
          rw [List.nodup_append]
          refine ⟨ihm.1, List.nodup_singleton _, ?_⟩
          intro a ha hb
          simp only [List.mem_singleton] at hb
          exact hex ((mgrLookup_isSome_iff_mem m fresh_id).mpr (hb ▸ ha))
        · intro kv hkv
          rw [List.mem_append] at hkv
          cases hkv with
          | inl hold => exact ihm.2 kv hold
          | inr hnew =>
            simp only [List.mem_singleton] at hnew
            subst hnew
            constructor
            · simp
            · exact Or.inl rfl
    · rw [if_pos (by simp at hde; simp [hde])]
      exact ihm
  | send m sid spawn hm ihm =>
    unfold send_prompt
    cases hl : mgrLookup m sid with
    | none => exact ihm
    | some s =>
      dsimp only
      by_cases hb : s.info.status = SessionStatus.Thinking
      · rw [if_pos hb]
        exact ihm
      · cases spawn with
        | none => rw [if_neg hb]; exact ihm
        | some hdl =>
          rw [if_neg hb]
          apply managerOK_update m sid _ ihm
          intro s0 _
          constructor
          · simp
          · exact Or.inr rfl
  | intr m sid hm ihm =>
    unfold interrupt
    cases hl : mgrLookup m sid with
    | none => exact ihm
    | some s =>
      dsimp only
      by_cases hp : s.active_process.isSome = true
      · rw [if_pos hp]
        apply managerOK_update m sid _ ihm
        intro s0 _
        constructor
        · simp
        · exact Or.inl rfl
      · rw [if_neg hp]
        exact ihm
  | term m sid hm ihm =>
    unfold terminate
    constructor
    · exact List.Nodup.sublist (List.Sublist.map Prod.fst (List.filter_sublist _)) ihm.1
    · intro kv hkv
      exact ihm.2 kv (List.mem_of_mem_filter hkv)
  | termAll m hm ihm => exact managerOK_empty
  | readerMsg m sid msg hm ihm =>
    apply managerOK_update m sid _ ihm
    intro s0 hs0
    unfold SessionOK at hs0 ⊢
    simp only [reader_on_message_status]
    exact hs0
  | readerFin m sid hm ihm =>
    apply managerOK_update m sid _ ihm
    intro s0 _
    constructor
    · simp
    · exact Or.inl rfl

/-! Lemmas about the reader task's per-message updates. -/

theorem reader_on_message_cost (info : SessionInfo) (msg : StreamMessage) :
    (reader_on_message info msg).total_cost_usd =
      info.total_cost_usd + ((costOf msg).getD 0) := by
  unfold reader_on_message costOf
  cases msg with
  | System sid extra =>
    cases sid with
    | none => simp
    | some cid => by_cases hc : info.claude_session_id = none <;> simp [hc]
  | Result c d e => cases c <;> simp
  | Assistant r c e => simp
  | ToolUse a b c d => simp
  | ToolResult a b c d => simp
  | Error a b => simp
  | ContentBlockDelta a b c => simp
  | ContentBlockStart a b c => simp
  | ContentBlockStop a b => simp
  | Unknown => simp

theorem reader_process_cost (msgs : List StreamMessage) :
    ∀ (info : SessionInfo),
      (reader_process info msgs).total_cost_usd =
        info.total_cost_usd + (msgs.filterMap costOf).sum := by
  induction msgs with
  | nil => intro info; simp [reader_process]
  | cons msg msgs ih =>
    intro info
    have step : reader_process info (msg :: msgs) =
        reader_process (reader_on_message info msg) msgs := rfl
    rw [step, ih, reader_on_message_cost]
    cases hc : costOf msg with
    | none => simp [List.filterMap_cons, hc]
    | some q => simp [List.filterMap_cons, hc]; ring

theorem reader_on_message_claude_some (info : SessionInfo) (msg : StreamMessage)
    (t : List Char) (h : info.claude_session_id = some t) :
    (reader_on_message info msg).claude_session_id = some t := by
  unfold reader_on_message
  cases msg with
  | System sid extra =>
    cases sid with
    | none => exact h
    | some cid => simp [h]
  | Result c d e => cases c <;> simp [h]
  | Assistant r c e => exact h
  | ToolUse a b c d => exact h
  | ToolResult a b c d => exact h
  | Error a b => exact h
  | ContentBlockDelta a b c => exact h
  | ContentBlockStart a b c => exact h
  | ContentBlockStop a b => exact h
  | Unknown => exact h

theorem reader_on_message_claude_none (info : SessionInfo) (msg : StreamMessage)
    (h : info.claude_session_id = none) :
    (reader_on_message info msg).claude_session_id = tokenOf msg := by
  unfold reader_on_message tokenOf
  cases msg with
  | System sid extra =>
    cases sid with
    | none => exact h
    | some cid => simp [h]
  | Result c d e => cases c <;> simp [h]
  | Assistant r c e => exact h
  | ToolUse a b c d => exact h
  | ToolResult a b c d => exact h
  | Error a b => exact h
  | ContentBlockDelta a b c => exact h
  | ContentBlockStart a b c => exact h
  | ContentBlockStop a b => exact h
  | Unknown => exact h

theorem reader_process_claude_some (msgs : List StreamMessage) :
    ∀ (info : SessionInfo) (t : List Char), info.claude_session_id = some t →
      (reader_process info msgs).claude_session_id = some t := by
  induction msgs with
  | nil => intro info t h; exact h
  | cons msg msgs ih =>
    intro info t h
    exact ih _ t (reader_on_message_claude_some info msg t h)

theorem reader_process_claude (msgs : List StreamMessage) :
    ∀ (info : SessionInfo), info.claude_session_id = none →
      (reader_process info msgs).claude_session_id = msgs.findSome? tokenOf := by
  induction msgs with
  | nil => intro info h; exact h
  | cons msg msgs ih =>
    intro info h
    have step : reader_process info (msg :: msgs) =
        reader_process (reader_on_message info msg) msgs := rfl
    rw [step, List.findSome?_cons]
    cases ht : tokenOf msg with
    | none => exact ih _ ((reader_on_message_claude_none info msg h).trans ht)
    | some t =>
      exact reader_process_claude_some msgs _ t
        ((reader_on_message_claude_none info msg h).trans ht)

/-- After a successful send_prompt the session is registered with status
Thinking and an occupied process slot. -/
theorem send_prompt_ok_state (m : ProcessManager) (sid : List Char)
    (spawn : Option Nat) (m' : ProcessManager) (h : Nat)
    (hok : send_prompt m sid spawn = (m', Except.ok h)) :
    ∃ s', mgrLookup m' sid = some s' ∧ s'.info.status = SessionStatus.Thinking := by
  unfold send_prompt at hok
  cases hl : mgrLookup m sid with
  | none =>
    rw [hl] at hok
    dsimp only at hok
    simp at hok
  | some s =>
    rw [hl] at hok
    dsimp only at hok
    by_cases hb : s.info.status = SessionStatus.Thinking
    · rw [if_pos hb] at hok
      simp at hok
    · rw [if_neg hb] at hok
      cases spawn with
      | none => simp at hok
      | some hdl =>
        have hm' : m' = mgrUpdate m sid (fun s =>
            Session.mk
              { s.info with status := SessionStatus.Thinking,
                            prompt_count := s.info.prompt_count + 1 }
              s.config (some hdl)) := by
          have := congrArg Prod.fst hok
          exact this.symm
        subst hm'
        refine ⟨Session.mk
            { s.info with status := SessionStatus.Thinking,
                          prompt_count := s.info.prompt_count + 1 }
            s.config (some hdl), ?_, ?_⟩
        · rw [mgrLookup_update, if_pos rfl, hl]
          rfl
        · rfl

/-! The claims. -/

/-- C1, counterexample: a chunk boundary inside the two-byte UTF-8 encoding of
a character makes both halves invalid UTF-8, so parse_chunk drops them and the
line is lost, whereas the single call on the concatenation decodes it. -/
theorem C1_counterexample :
    (parse_chunks (StreamJsonParser.mk [])
        ["\x7b\"a\":\"".toList.map Char.toNat ++ [0xC3],
         [0xA9] ++ "\"\x7d\n".toList.map Char.toNat]).2 ≠
    (parse_chunk (StreamJsonParser.mk [])
        (("\x7b\"a\":\"".toList.map Char.toNat ++ [0xC3]) ++
         ([0xA9] ++ "\"\x7d\n".toList.map Char.toNat))).2 := by
  intro heq
  have h1 : (parse_chunks (StreamJsonParser.mk [])
      ["\x7b\"a\":\"".toList.map Char.toNat ++ [0xC3],
       [0xA9] ++ "\"\x7d\n".toList.map Char.toNat]).2 = [] := rfl
  have h2 : (parse_chunk (StreamJsonParser.mk [])
      (("\x7b\"a\":\"".toList.map Char.toNat ++ [0xC3]) ++
       ([0xA9] ++ "\"\x7d\n".toList.map Char.toNat))).2 = [StreamMessage.Unknown] := rfl
  rw [h1, h2] at heq
  exact List.cons_ne_nil _ _ heq.symm

/-- C1, amended: as long as no chunk boundary falls inside a multi-byte UTF-8
character (each chunk is individually valid UTF-8), feeding the chunks one
parse_chunk call at a time produces exactly the message sequence and final
state of a single parse_chunk call on the concatenation, for every start state
whose buffer holds no newline (true of every state the parser can reach). -/
theorem C1_chunking_agrees (p : StreamJsonParser) (chunks : List (List Nat))
    (hbuf : '\n' ∉ p.buffer)
    (hvalid : ∀ c ∈ chunks, (utf8Decode c).isSome) :
    parse_chunks p chunks = parse_chunk p chunks.flatten :=
  parse_chunks_eq_flatten chunks p hbuf hvalid

/-- C1, witness: a result line split in the middle of a key decodes to the
same single message whether fed as two chunks or as one. -/
theorem C1_chunking_agrees_witness :
    parse_chunks (StreamJsonParser.mk [])
        ["\x7b\"type\":\"res".toList.map Char.toNat,
         "ult\"\x7d\n".toList.map Char.toNat] =
      parse_chunk (StreamJsonParser.mk [])
        (["\x7b\"type\":\"res".toList.map Char.toNat,
          "ult\"\x7d\n".toList.map Char.toNat]).flatten :=
  C1_chunking_agrees (StreamJsonParser.mk []) _ (by simp) (by decide)

/-- C2: a newline-terminated line of syntactically invalid JSON produces no
message and no error (parse_chunk has no error outcome at all: the line is
dropped), and every line after it, in the same chunk or in later chunks, is
decoded exactly as if the bad line were absent. -/
theorem C2_invalid_line_skipped (bad c0 : List Char) (cs : List (List Char))
    (hnl : '\n' ∉ bad)
    (hbad : json_from_str (trimEndCR (rustTrim bad)) = none) :
    parse_chunks_str (StreamJsonParser.mk []) ((bad ++ '\n' :: c0) :: cs) =
      parse_chunks_str (StreamJsonParser.mk []) (c0 :: cs) := by
  simp only [parse_chunks_str]
  rw [parse_chunk_str_drop_line bad c0 hnl (lineMessages_of_invalid bad hbad)]

/-- C2, witness: an unparseable line followed by a valid system line in the
same chunk yields exactly the decoding of the valid line. -/
theorem C2_invalid_line_skipped_witness :
    parse_chunks_str (StreamJsonParser.mk [])
        (("not valid json".toList ++ '\n' ::
          ("\x7b\"type\":\"system\"\x7d".toList ++ ['\n'])) :: []) =
      parse_chunks_str (StreamJsonParser.mk [])
        (("\x7b\"type\":\"system\"\x7d".toList ++ ['\n']) :: []) :=
  C2_invalid_line_skipped _ _ _ (by decide) (by rfl)

/-- C4: with residual unterminated content pending, flush returns the decode
of the trimmed residual as at most one message, leaves the buffer empty and
has_pending false whether or not the decode succeeded, and a second flush
returns nothing. -/
theorem C4_flush_exactly_once (p : StreamJsonParser) (hp : has_pending p = true) :
    (flush p).2 = parse_line (rustTrim p.buffer) ∧
    (flush p).1.buffer = [] ∧
    has_pending (flush p).1 = false ∧
    (flush (flush p).1).2 = none := by
  have hne : ¬ rustTrim p.buffer = [] := by
    unfold has_pending at hp
    intro hh
    rw [hh] at hp
    simp at hp
  unfold flush
  rw [if_neg hne]
  refine ⟨rfl, rfl, rfl, rfl⟩

/-- C4, witness: after a parse_chunk call on an unterminated line, flush
returns the decoded system message once and empties the decoder. -/
theorem C4_flush_exactly_once_witness :
    has_pending (parse_chunk (StreamJsonParser.mk [])
        ("\x7b\"type\":\"system\"\x7d".toList.map Char.toNat)).1 = true ∧
    (flush (parse_chunk (StreamJsonParser.mk [])
        ("\x7b\"type\":\"system\"\x7d".toList.map Char.toNat)).1).2 =
      parse_line (rustTrim (parse_chunk (StreamJsonParser.mk [])
        ("\x7b\"type\":\"system\"\x7d".toList.map Char.toNat)).1.buffer) ∧
    (flush (parse_chunk (StreamJsonParser.mk [])
        ("\x7b\"type\":\"system\"\x7d".toList.map Char.toNat)).1).1.buffer = [] ∧
    has_pending (flush (parse_chunk (StreamJsonParser.mk [])
        ("\x7b\"type\":\"system\"\x7d".toList.map Char.toNat)).1).1 = false ∧
    (flush (flush (parse_chunk (StreamJsonParser.mk [])
        ("\x7b\"type\":\"system\"\x7d".toList.map Char.toNat)).1).1).2 = none := by
  refine ⟨by rfl, ?_⟩
  exact C4_flush_exactly_once _ (by rfl)

theorem mgrLookup_append_new (l : List (List Char × Session)) (sid : List Char)
    (s : Session) (h : sid ∉ l.map Prod.fst) :
    mgrLookup (ProcessManager.mk (l ++ [(sid, s)])) sid = some s := by
  induction l with
  | nil =>
    simp only [mgrLookup, List.nil_append]
    rw [List.find?_cons_of_pos _ (by simp)]
    rfl
  | cons kv l ih =>
    obtain ⟨k, s0⟩ := kv
    simp only [List.map_cons, List.mem_cons] at h
    push_neg at h
    simp only [mgrLookup, List.cons_append]
    rw [List.find?_cons_of_neg _ (by simp; exact fun hh => h.1 hh.symm)]
    exact ih h.2

/-- A successful create_session registers exactly the fresh Idle session with
zero counters and no resumption token. -/
theorem create_session_ok_info (m : ProcessManager) (config : SessionConfig)
    (fresh_id : List Char) (now : Nat) (de : Bool) (m' : ProcessManager)
    (rid : List Char)
    (h : create_session m config fresh_id now de = (m', Except.ok rid)) :
    rid = fresh_id ∧
    get_session m' rid =
      some (SessionInfo.mk fresh_id none config.working_dir config.model
        SessionStatus.Idle now 0 0) := by
  unfold create_session at h
  by_cases hde : de = true
  · rw [if_neg (by simp [hde])] at h
    by_cases hex : (mgrLookup m fresh_id).isSome = true
    · rw [if_pos hex] at h
      simp at h
    · rw [if_neg hex] at h
      have hm' : ProcessManager.mk (m.sessions ++ [(fresh_id,
          Session.mk
            (SessionInfo.mk fresh_id none config.working_dir config.model
              SessionStatus.Idle now 0 0)
            config none)]) = m' := congrArg Prod.fst h
      have hrid : rid = fresh_id := by
        have := congrArg Prod.snd h
        simp at this
        exact this.symm
      subst hrid
      refine ⟨rfl, ?_⟩
      rw [← hm']
      unfold get_session
      rw [mgrLookup_append_new m.sessions rid _
        (fun hmem => hex ((mgrLookup_isSome_iff_mem m rid).mpr hmem))]
      rfl
  · rw [if_pos (by simp at hde; simp [hde])] at h
    simp at h

/-- C5: a prompt sent to a session whose status is Thinking is rejected with
SessionBusy and the manager is unchanged, whatever the spawn oracle would
return (no process is spawned, no counter moves); in particular a second
send_prompt issued right after a successful one is rejected with SessionBusy
while the first turn is still running. -/
theorem C5_session_busy :
    (∀ (m : ProcessManager) (sid : List Char) (s : Session) (spawn : Option Nat),
      mgrLookup m sid = some s → s.info.status = SessionStatus.Thinking →
      send_prompt m sid spawn = (m, Except.error ProcessError.SessionBusy)) ∧
    (∀ (m m' : ProcessManager) (sid : List Char) (spawn : Option Nat) (h : Nat)
      (spawn2 : Option Nat),
      send_prompt m sid spawn = (m', Except.ok h) →
      send_prompt m' sid spawn2 = (m', Except.error ProcessError.SessionBusy)) := by
  constructor
  · intro m sid s spawn hs hth
    unfold send_prompt
    rw [hs]
    dsimp only
    rw [if_pos hth]
  · intro m m' sid spawn h spawn2 hok
    obtain ⟨s', hs', hth'⟩ := send_prompt_ok_state m sid spawn m' h hok
    unfold send_prompt
    rw [hs']
    dsimp only
    rw [if_pos hth']

/-- C5, witness: on a fresh session a first prompt succeeds, and an immediate
second prompt is rejected with SessionBusy without touching the state. -/
theorem C5_session_busy_witness :
    send_prompt
        (send_prompt
          (create_session (ProcessManager.mk [])
            (SessionConfig.mk ("d".toList) ("m".toList) []) ("s".toList) 0 true).1
          ("s".toList) (some 7)).1
        ("s".toList) none =
      ((send_prompt
          (create_session (ProcessManager.mk [])
            (SessionConfig.mk ("d".toList) ("m".toList) []) ("s".toList) 0 true).1
          ("s".toList) (some 7)).1,
       Except.error ProcessError.SessionBusy) :=
  C5_session_busy.2
    (create_session (ProcessManager.mk [])
      (SessionConfig.mk ("d".toList) ("m".toList) []) ("s".toList) 0 true).1
    (send_prompt
      (create_session (ProcessManager.mk [])
        (SessionConfig.mk ("d".toList) ("m".toList) []) ("s".toList) 0 true).1
      ("s".toList) (some 7)).1
    ("s".toList) (some 7) 7 none (by rfl)

/-- C6: when the OS-level spawn fails, send_prompt on a registered Idle
session returns the SpawnFailed error and the whole manager state is exactly
what it was: the session stays Idle with its prompt count and empty
active-process slot untouched, and no reader task is started (the ok result
is the only reader-starting outcome). -/
theorem C6_spawn_failed (m : ProcessManager) (sid : List Char) (s : Session)
    (hr : Reachable m) (hs : mgrLookup m sid = some s)
    (hidle : s.info.status = SessionStatus.Idle) :
    send_prompt m sid none = (m, Except.error ProcessError.SpawnFailed) ∧
    s.active_process = none := by
  constructor
  · unfold send_prompt
    rw [hs]
    dsimp only
    rw [if_neg (by rw [hidle]; simp)]
  · have hsOK := managerOK_lookup m sid s (reachable_ok m hr) hs
    have hnth : ¬ s.active_process.isSome = true := by
      intro hh
      have := hsOK.1.mp hh
      rw [hidle] at this
      cases this
    exact Option.not_isSome_iff_eq_none.mp hnth

/-- C6, witness: spawn failure on a freshly created session. -/
theorem C6_spawn_failed_witness :
    send_prompt
        (create_session (ProcessManager.mk [])
          (SessionConfig.mk ("d".toList) ("m".toList) []) ("s".toList) 0 true).1
        ("s".toList) none =
      ((create_session (ProcessManager.mk [])
          (SessionConfig.mk ("d".toList) ("m".toList) []) ("s".toList) 0 true).1,
       Except.error ProcessError.SpawnFailed) ∧
    (Session.mk
      (SessionInfo.mk ("s".toList) none ("d".toList) ("m".toList)
        SessionStatus.Idle 0 0 0)
      (SessionConfig.mk ("d".toList) ("m".toList) []) none).active_process = none :=
  C6_spawn_failed _ ("s".toList) _
    (Reachable.create _ _ _ _ _ Reachable.init) (by rfl) (by rfl)

/-- C7, counterexample: the cost carried by a Result message is added blindly,
so a message reporting a negative cost strictly decreases the accumulated
total (here from its starting value 0 to below 0) — the total is not
monotonically non-decreasing under every sequence of decoded messages. -/
theorem C7_counterexample :
    (reader_process
        (SessionInfo.mk ("s".toList) none ("d".toList) ("m".toList)
          SessionStatus.Idle 0 0 0)
        [StreamMessage.Result (some (-1)) none Json.null]).total_cost_usd < 0 := by
  norm_num [reader_process, reader_on_message, List.foldl]

/-- C7, amended: the accumulated cost starts at zero at creation, and a reader
task processing a sequence of decoded messages leaves the total at its old
value plus the sum of the cost figures of the Result messages in the sequence
(additive, never overwritten); the total is non-decreasing provided every
reported cost figure is non-negative (a negative reported cost decreases it). -/
theorem C7_cost_accumulation :
    (∀ (m : ProcessManager) (config : SessionConfig) (fresh_id : List Char)
      (now : Nat) (de : Bool) (m' : ProcessManager) (rid : List Char),
      create_session m config fresh_id now de = (m', Except.ok rid) →
      (get_session m' rid).map SessionInfo.total_cost_usd = some 0) ∧
    (∀ (info : SessionInfo) (msgs : List StreamMessage),
      (reader_process info msgs).total_cost_usd =
        info.total_cost_usd + (msgs.filterMap costOf).sum) ∧
    (∀ (info : SessionInfo) (msgs : List StreamMessage),
      (∀ q ∈ msgs.filterMap costOf, 0 ≤ q) →
      info.total_cost_usd ≤ (reader_process info msgs).total_cost_usd) := by
  refine ⟨?_, ?_, ?_⟩
  · intro m config fresh_id now de m' rid h
    obtain ⟨hrid, hinfo⟩ := create_session_ok_info m config fresh_id now de m' rid h
    rw [hinfo]
    rfl
  · intro info msgs
    exact reader_process_cost msgs info
  · intro info msgs hnn
    rw [reader_process_cost msgs info]
    exact le_add_of_nonneg_right (List.sum_nonneg hnn)

/-- C7, witness: a fresh session starts at zero cost, and processing two
non-negative cost reports adds them up without ever decreasing the total. -/
theorem C7_cost_accumulation_witness :
    (get_session
        (create_session (ProcessManager.mk [])
          (SessionConfig.mk ("d".toList) ("m".toList) []) ("s".toList) 0 true).1
        ("s".toList)).map SessionInfo.total_cost_usd = some 0 ∧
    (SessionInfo.mk ("s".toList) none ("d".toList) ("m".toList)
        SessionStatus.Idle 0 0 0).total_cost_usd ≤
      (reader_process
        (SessionInfo.mk ("s".toList) none ("d".toList) ("m".toList)
          SessionStatus.Idle 0 0 0)
        [StreamMessage.Result (some 2) none Json.null,
         StreamMessage.Result (some 3) none Json.null]).total_cost_usd :=
  ⟨C7_cost_accumulation.1 (ProcessManager.mk [])
      (SessionConfig.mk ("d".toList) ("m".toList) []) ("s".toList) 0 true
      (create_session (ProcessManager.mk [])
        (SessionConfig.mk ("d".toList) ("m".toList) []) ("s".toList) 0 true).1
      ("s".toList) (by rfl),
   C7_cost_accumulation.2.2 _ _ (by decide)⟩

/-- C8: the resumption token is None at creation; once it is Some it is never
changed by any later message (first writer wins, in this turn or any later
one); and from the None state a reader task records exactly the first token
carried by a System message of the processed sequence (staying None if there
is none). -/
theorem C8_token_first_writer_wins :
    (∀ (m : ProcessManager) (config : SessionConfig) (fresh_id : List Char)
      (now : Nat) (de : Bool) (m' : ProcessManager) (rid : List Char),
      create_session m config fresh_id now de = (m', Except.ok rid) →
      (get_session m' rid).map SessionInfo.claude_session_id = some none) ∧
    (∀ (info : SessionInfo) (msg : StreamMessage) (t : List Char),
      info.claude_session_id = some t →
      (reader_on_message info msg).claude_session_id = some t) ∧
    (∀ (info : SessionInfo) (msgs : List StreamMessage),
      info.claude_session_id = none →
      (reader_process info msgs).claude_session_id = msgs.findSome? tokenOf) := by
  refine ⟨?_, ?_, ?_⟩
  · intro m config fresh_id now de m' rid h
    obtain ⟨hrid, hinfo⟩ := create_session_ok_info m config fresh_id now de m' rid h
    rw [hinfo]
    rfl
  · intro info msg t h
    exact reader_on_message_claude_some info msg t h
  · intro info msgs h
    exact reader_process_claude msgs info h

/-- C8, witness: from None the first System token is recorded, and a recorded
token survives a later System message carrying a different token. -/
theorem C8_token_first_writer_wins_witness :
    (SessionInfo.mk ("s".toList) none ("d".toList) ("m".toList)
        SessionStatus.Idle 0 0 0).claude_session_id = none ∧
    (reader_process
        (SessionInfo.mk ("s".toList) none ("d".toList) ("m".toList)
          SessionStatus.Idle 0 0 0)
        [StreamMessage.System (some ("t1".toList)) Json.null,
         StreamMessage.System (some ("t2".toList)) Json.null]).claude_session_id =
      ([StreamMessage.System (some ("t1".toList)) Json.null,
        StreamMessage.System (some ("t2".toList)) Json.null]).findSome? tokenOf ∧
    (reader_on_message
        (SessionInfo.mk ("s".toList) (some ("t1".toList)) ("d".toList) ("m".toList)
          SessionStatus.Thinking 0 1 0)
        (StreamMessage.System (some ("t2".toList)) Json.null)).claude_session_id =
      some ("t1".toList) :=
  ⟨rfl,
   C8_token_first_writer_wins.2.2 _ _ (by rfl),
   C8_token_first_writer_wins.2.1 _ _ ("t1".toList) (by rfl)⟩

/-- C9: interrupt on a registered session with no active process succeeds,
changes nothing (a no-op with respect to the process and the whole manager
state), and the session's status is Idle — in every reachable state a
registered session without a process is Idle. -/
theorem C9_interrupt_no_process (m : ProcessManager) (sid : List Char)
    (s : Session) (hr : Reachable m) (hs : mgrLookup m sid = some s)
    (hnp : s.active_process = none) :
    interrupt m sid = (m, Except.ok ()) ∧ s.info.status = SessionStatus.Idle := by
  have hsOK := managerOK_lookup m sid s (reachable_ok m hr) hs
  have hidle : s.info.status = SessionStatus.Idle := by
    cases hsOK.2 with
    | inl h => exact h
    | inr hth =>
      exfalso
      have := hsOK.1.mpr hth
      rw [hnp] at this
      cases this
  refine ⟨?_, hidle⟩
  unfold interrupt
  rw [hs]
  dsimp only
  rw [if_neg (by rw [hnp]; simp)]

/-- C9, witness: interrupting a freshly created session (no process yet). -/
theorem C9_interrupt_no_process_witness :
    interrupt
        (create_session (ProcessManager.mk [])
          (SessionConfig.mk ("d".toList) ("m".toList) []) ("s".toList) 0 true).1
        ("s".toList) =
      ((create_session (ProcessManager.mk [])
          (SessionConfig.mk ("d".toList) ("m".toList) []) ("s".toList) 0 true).1,
       Except.ok ()) ∧
    (Session.mk
      (SessionInfo.mk ("s".toList) none ("d".toList) ("m".toList)
        SessionStatus.Idle 0 0 0)
      (SessionConfig.mk ("d".toList) ("m".toList) []) none).info.status =
      SessionStatus.Idle :=
  C9_interrupt_no_process _ ("s".toList) _
    (Reachable.create _ _ _ _ _ Reachable.init) (by rfl) (by rfl)

/-- C10: active_count is the number of registered sessions, counting every
session whatever its status or process (it equals the length of the
get_sessions snapshot); it is unchanged by send_prompt, interrupt, set_status
and the reader-task steps, grows by one exactly on a successful
create_session, shrinks by one when terminate removes a registered id (and is
unchanged when the id is unknown), and drops to zero on terminate_all. -/
theorem C10_active_count :
    (∀ (m : ProcessManager), active_count m = (get_sessions m).length) ∧
    (∀ (m : ProcessManager) (config : SessionConfig) (fresh_id : List Char)
      (now : Nat) (de : Bool) (m' : ProcessManager) (rid : List Char),
      create_session m config fresh_id now de = (m', Except.ok rid) →
      active_count m' = active_count m + 1) ∧
    (∀ (m : ProcessManager) (config : SessionConfig) (fresh_id : List Char)
      (now : Nat) (de : Bool) (m' : ProcessManager) (e : ProcessError),
      create_session m config fresh_id now de = (m', Except.error e) →
      active_count m' = active_count m) ∧
    (∀ (m : ProcessManager) (sid : List Char) (spawn : Option Nat),
      active_count (send_prompt m sid spawn).1 = active_count m) ∧
    (∀ (m : ProcessManager) (sid : List Char),
      active_count (interrupt m sid).1 = active_count m) ∧
    (∀ (m : ProcessManager) (sid : List Char) (st : SessionStatus),
      active_count (set_status m sid st).1 = active_count m) ∧
    (∀ (m : ProcessManager) (sid : List Char) (msg : StreamMessage),
      active_count (reader_apply_msg m sid msg) = active_count m) ∧
    (∀ (m : ProcessManager) (sid : List Char),
      active_count (reader_finish m sid) = active_count m) ∧
    (∀ (m : ProcessManager) (sid : List Char), Reachable m →
      (mgrLookup m sid).isSome = true →
      active_count (terminate m sid).1 + 1 = active_count m) ∧
    (∀ (m : ProcessManager) (sid : List Char), mgrLookup m sid = none →
      active_count (terminate m sid).1 = active_count m) ∧
    (∀ (m : ProcessManager), active_count (terminate_all m) = 0) := by
  refine ⟨?_, ?_, ?_, ?_, ?_, ?_, ?_, ?_, ?_, ?_, ?_⟩
  · intro m
    simp [active_count, get_sessions]
  · intro m config fresh_id now de m' rid h
    unfold create_session at h
    by_cases hde : de = true
    · rw [if_neg (by simp [hde])] at h
      by_cases hex : (mgrLookup m fresh_id).isSome = true
      · rw [if_pos hex] at h
        simp at h
      · rw [if_neg hex] at h
        have hm' := congrArg Prod.fst h
        simp only at hm'
        rw [← hm']
        simp [active_count]
    · rw [if_pos (by simp at hde; simp [hde])] at h
      simp at h
  · intro m config fresh_id now de m' e h
    unfold create_session at h
    by_cases hde : de = true
    · rw [if_neg (by simp [hde])] at h
      by_cases hex : (mgrLookup m fresh_id).isSome = true
      · rw [if_pos hex] at h
        have hm' := congrArg Prod.fst h
        simp only at hm'
        rw [← hm']
      · rw [if_neg hex] at h
        simp at h
    · rw [if_pos (by simp at hde; simp [hde])] at h
      have hm' := congrArg Prod.fst h
      simp only at hm'
      rw [← hm']
  · intro m sid spawn
    unfold send_prompt
    cases hl : mgrLookup m sid with
    | none => rfl
    | some s =>
      dsimp only
      by_cases hb : s.info.status = SessionStatus.Thinking
      · rw [if_pos hb]
      · rw [if_neg hb]
        cases spawn with
        | none => rfl
        | some hdl => exact mgrUpdate_length m sid _
  · intro m sid
    unfold interrupt
    cases hl : mgrLookup m sid with
    | none => rfl
    | some s =>
      dsimp only
      by_cases hp : s.active_process.isSome = true
      · rw [if_pos hp]
        exact mgrUpdate_length m sid _
      · rw [if_neg hp]
  · intro m sid st
    unfold set_status
    cases hl : mgrLookup m sid with
    | none => rfl
    | some s => exact mgrUpdate_length m sid _
  · intro m sid msg
    exact mgrUpdate_length m sid _
  · intro m sid
    exact mgrUpdate_length m sid _
  · intro m sid hr hsome
    exact filter_length_of_mem m.sessions sid (reachable_ok m hr).1
      ((mgrLookup_isSome_iff_mem m sid).mp hsome)
  · intro m sid hnone
    have hnot : sid ∉ m.sessions.map Prod.fst := by
      intro hmem
      have := (mgrLookup_isSome_iff_mem m sid).mpr hmem
      rw [hnone] at this
      cases this
    unfold terminate active_count
    rw [filter_keep_of_not_mem m.sessions sid hnot]
  · intro m
    rfl

/-- C10, witness: creating a session raises the count from zero to one, and
terminating that registered session brings it back to zero. -/
theorem C10_active_count_witness :
    active_count
        (create_session (ProcessManager.mk [])
          (SessionConfig.mk ("d".toList) ("m".toList) []) ("s".toList) 0 true).1 =
      active_count (ProcessManager.mk []) + 1 ∧
    active_count
        (terminate
          (create_session (ProcessManager.mk [])
            (SessionConfig.mk ("d".toList) ("m".toList) []) ("s".toList) 0 true).1
          ("s".toList)).1 + 1 =
      active_count
        (create_session (ProcessManager.mk [])
          (SessionConfig.mk ("d".toList) ("m".toList) []) ("s".toList) 0 true).1 :=
  ⟨C10_active_count.2.1 (ProcessManager.mk [])
      (SessionConfig.mk ("d".toList) ("m".toList) []) ("s".toList) 0 true
      (create_session (ProcessManager.mk [])
        (SessionConfig.mk ("d".toList) ("m".toList) []) ("s".toList) 0 true).1
      ("s".toList) (by rfl),
   C10_active_count.2.2.2.2.2.2.2.2.1 _ ("s".toList)
      (Reachable.create _ _ _ _ _ Reachable.init) (by rfl)⟩
